import Mathlib

/-!
Verification development for the Jira context-aggregation service
(`src/main.py`, `src/services/atlassian_client.py`, `src/services/ai_service.py`).

Python strings are modelled as `List Char` (`Str`), Python dicts holding
remote JSON responses as structures with the fields the code reads, and a
remote response that is `None`, a non-dict, or missing the key the code
guards on as `Option.none`.  Fallible computations are `Except Unit`.
Remote responses are supplied through an environment record, so every
definition is a pure function of the request inputs and the environment.
-/

set_option maxRecDepth 8000

abbrev Str := List Char

/-- `pat` is a prefix of `s` (Python `str.startswith`, used to define
substring membership below). -/
def startsWithStr : Str → Str → Bool
  | [], _ => true
  | _ :: _, [] => false
  | p :: ps, c :: cs => (p == c) && startsWithStr ps cs

/-- Python's `needle in hay` on strings: `needle` occurs contiguously in
`hay` (the empty needle occurs in every string). -/
def occursIn (needle : Str) : Str → Bool
  | [] => needle.isEmpty
  | c :: rest => startsWithStr needle (c :: rest) || occursIn needle rest

/-- Python `str.upper`, character by character. -/
def upperStr (s : Str) : Str := s.map Char.toUpper

/-- Python `str.lower`, character by character. -/
def lowerStr (s : Str) : Str := s.map Char.toLower

/-- ASCII whitespace recognised by Python `str.strip()`. -/
def isSpaceChar (c : Char) : Bool :=
  c == ' ' || c == '\t' || c == '\n' || c == '\r' || c == '\x0b' || c == '\x0c'

/-- Python `str.strip()`: drop leading and trailing whitespace. -/
def stripStr (s : Str) : Str :=
  ((s.dropWhile isSpaceChar).reverse.dropWhile isSpaceChar).reverse

/-- Helper for `replaceAllStr` with a nonempty pattern `p :: ps`:
left-to-right, non-overlapping replacement, continuing after the inserted
replacement (Python `str.replace` semantics). -/
def replaceFrom (p : Char) (ps rep : Str) : Str → Str
  | [] => []
  | c :: rest =>
    if startsWithStr (p :: ps) (c :: rest) then
      rep ++ replaceFrom p ps rep (rest.drop ps.length)
    else c :: replaceFrom p ps rep rest
termination_by s => s.length
decreasing_by
  · simp only [List.length_drop, List.length_cons]; omega
  · simp only [List.length_cons]; omega

/-- Python `s.replace(pat, rep)`.  The source only calls it with the
two-character bullet patterns, so the empty-pattern branch is never
reached. -/
def replaceAllStr (pat rep s : Str) : Str :=
  match pat with
  | [] => s
  | p :: ps => replaceFrom p ps rep s

/-! ## Remote Fetcher (`AtlassianClient._make_async_request`)

The HTTP layer either delivers a status code with a body or fails at the
transport level (the `except` clause).  The function's caller sees only the
returned `Option`; the second component records the log call the function
makes (`logger.warning` for 404, `logger.error` otherwise). -/

/-- Outcome of the underlying HTTP GET, before `_make_async_request`
normalizes it. -/
inductive HttpOutcome (β : Type) where
  | response (code : Nat) (body : β)
  | transportFailure
deriving DecidableEq

/-- Which log call `_make_async_request` performs (no log on success). -/
inductive RequestLog where
  | successLog
  | warningNotFound
  | errorStatusLog (code : Nat)
  | errorTransport
deriving DecidableEq

/-- `AtlassianClient._make_async_request`: status 200 yields the body,
status 404 yields `None` after `logger.warning`, any other status yields
`None` after `logger.error`, and a raised transport exception yields `None`
after `logger.error`.  First component is the value returned to the caller,
second the log entry. -/
def make_async_request {β : Type} (r : HttpOutcome β) : Option β × RequestLog :=
  match r with
  | .response code body =>
    if code = 200 then (some body, RequestLog.successLog)
    else if code = 404 then (none, RequestLog.warningNotFound)
    else (none, RequestLog.errorStatusLog code)
  | .transportFailure => (none, RequestLog.errorTransport)

/-! ## Commit search (`_get_bitbucket_commits`, `_get_commits_for_repo`) -/

/-- One entry of the Bitbucket repository listing (`repos_data['values']`):
the code reads `slug` and `name`. -/
structure Repo where
  slug : Str
  name : Str
deriving DecidableEq

/-- One entry of a repository's commit listing (`commits_data['values']`).
`commit.get('message', '')` is the `message` field (a missing key is the
empty string); `commit['author'].get('displayName', 'Unknown')` is
`authorDisplayName`. -/
structure Commit where
  id : Str
  message : Str
  authorDisplayName : Option Str
  authorTimestamp : Int
deriving DecidableEq

/-- The dict `_get_commits_for_repo` appends for a matching commit.
`aiSummary` is the key the enrichment stage may add later; the Atlassian
client never sets it (`none`). -/
structure CommitRecord where
  id : Str
  message : Str
  author : Str
  authorTimestamp : Int
  repository : Str
  repoSlug : Str
  aiSummary : Option Str
deriving DecidableEq

/-- `AtlassianClient._get_commits_for_repo`: `none` models a commits fetch
that returned `None` or a response without `'values'`; otherwise every
commit whose message contains the issue key case-insensitively
(`issue_key.upper() in commit_message.upper()`) is mapped to a record, in
listing order. -/
def get_commits_for_repo (commitsData : Option (List Commit))
    (repoName repoSlug issueKey : Str) : List CommitRecord :=
  match commitsData with
  | none => []
  | some values =>
    (values.filter (fun c => occursIn (upperStr issueKey) (upperStr c.message))).map
      (fun c =>
        { id := c.id
          message := c.message
          author := c.authorDisplayName.getD "Unknown".toList
          authorTimestamp := c.authorTimestamp
          repository := repoName
          repoSlug := repoSlug
          aiSummary := none })

/-- An entry of the `commit_tasks` list: `some r` is a coroutine created by
`_get_commits_for_repo` that has not been awaited yet and whose result will
be `r`; `none` is a coroutine already consumed by an earlier
`asyncio.gather` (awaiting it again raises
`RuntimeError: cannot reuse already awaited coroutine`). -/
abbrev TaskEntry := Option (List CommitRecord)

/-- `asyncio.gather(*commit_tasks, return_exceptions=True)`: a fresh
coroutine contributes its result, a reused one contributes the captured
`RuntimeError`. -/
def gatherTasks (ts : List TaskEntry) : List (Except Unit (List CommitRecord)) :=
  ts.map (fun t => match t with
    | some r => Except.ok r
    | none => Except.error ())

/-- One iteration of the `for repo in repos_data['values'][:3]` loop in
`_get_bitbucket_commits`: the repo's coroutine is appended to
`commit_tasks`, then — because the `await asyncio.gather(...)` statement is
indented inside the loop — the whole task list is gathered, which consumes
every coroutine in it.  The state is `(commit_tasks, repo_commits)` where
`repo_commits` is `none` while the variable is still unassigned. -/
def commitLoopStep
    (st : List TaskEntry × Option (List (Except Unit (List CommitRecord))))
    (r : List CommitRecord) :
    List TaskEntry × Option (List (Except Unit (List CommitRecord))) :=
  let ts := st.1 ++ [some r]
  (ts.map (fun _ => (none : TaskEntry)), some (gatherTasks ts))

/-- The `for commit_list in repo_commits` loop: `commits.extend` for list
entries, exceptions skipped by the `isinstance(commit_list, list)` guard. -/
def extendLists (acc : List CommitRecord)
    (e : Except Unit (List CommitRecord)) : List CommitRecord :=
  match e with
  | .ok l => acc ++ l
  | .error _ => acc

/-- `AtlassianClient._get_bitbucket_commits`.  `reposData = none` models a
repository listing that returned `None`, was falsy, or lacked `'values'`
(early `return commits`).  `commitsOf` gives each repo slug's commits
response.  When the listing yields no repositories the loop never assigns
`repo_commits` and iterating it raises `UnboundLocalError`
(`Except.error ()`); otherwise the final list is capped at 15. -/
def get_bitbucket_commits (issueKey : Str) (reposData : Option (List Repo))
    (commitsOf : Str → Option (List Commit)) : Except Unit (List CommitRecord) :=
  match reposData with
  | none => Except.ok []
  | some values =>
    match (((values.take 3).map
        (fun repo => get_commits_for_repo (commitsOf repo.slug) repo.name repo.slug issueKey)).foldl
          commitLoopStep ([], none)).2 with
    | none => Except.error ()
    | some gathered => Except.ok ((gathered.foldl extendLists []).take 15)

/-- The behaviour §4.4 of the spec describes for `searchCommits`:
concatenate each of the (up to first 3) repositories' matching commits in
listing order, preserving per-repo order, and cap the result at 15.  Used
only to exhibit how `get_bitbucket_commits` diverges from it. -/
def spec_search_commits (issueKey : Str) (repos : List Repo)
    (commitsOf : Str → Option (List Commit)) : List CommitRecord :=
  (((repos.take 3).map
      (fun repo => get_commits_for_repo (commitsOf repo.slug) repo.name repo.slug issueKey)).foldl
    (· ++ ·) []).take 15

/-! ## Document search (`_get_confluence_docs`) -/

/-- One entry of a Confluence search response's `results` list, with the
fields the code reads; `versionWhen` models
`doc.get('version', {}).get('when', '')` (either level may be absent) and
`links` the `_links` value. -/
structure ConfDoc where
  id : Str
  title : Str
  docType : Str
  versionWhen : Option Str
  links : Str
deriving DecidableEq

/-- The dict `_get_confluence_docs` builds per result (`type` key is
`docType`, `_links` is `links`). -/
structure DocumentRecord where
  id : Str
  title : Str
  docType : Str
  lastModified : Str
  links : Str
deriving DecidableEq

def toDocumentRecord (d : ConfDoc) : DocumentRecord :=
  { id := d.id
    title := d.title
    docType := d.docType
    lastModified := d.versionWhen.getD []
    links := d.links }

/-- The `for result in results` loop: a response that is a dict with a
`results` key contributes its docs in order; anything else (a `None`
return, an exception captured by `return_exceptions=True`, a missing key)
contributes nothing. -/
def collectStep (acc : List DocumentRecord) (r : Option (List ConfDoc)) :
    List DocumentRecord :=
  match r with
  | some ds => acc ++ ds.map toDocumentRecord
  | none => acc

/-- Flattening of the three query responses in query order. -/
def collectDocs (results : List (Option (List ConfDoc))) : List DocumentRecord :=
  results.foldl collectStep []

/-- The dedup loop of `_get_confluence_docs`: `seen` is `seen_ids`, `acc`
is `unique_docs`; a doc is appended only if its id has not been seen. -/
def dedupDocs (seen : List Str) (acc : List DocumentRecord) :
    List DocumentRecord → List DocumentRecord
  | [] => acc
  | d :: ds =>
    if d.id ∈ seen then dedupDocs seen acc ds
    else dedupDocs (d.id :: seen) (acc ++ [d]) ds

/-- `AtlassianClient._get_confluence_docs`: the three search queries are
gathered in query order (`asyncio.gather` preserves argument order), the
responses flattened, deduplicated by first-seen id, and capped at 8. -/
def get_confluence_docs (results : List (Option (List ConfDoc))) :
    List DocumentRecord :=
  (dedupDocs [] [] (collectDocs results)).take 8

/-! ## Linked service tickets (`_get_linked_service_tickets`) -/

/-- `linked_issue['fields']`: the fields the code reads; `priorityName`
models `fields.get('priority', {}).get('name', 'Not set')`. -/
structure LinkedFields where
  summary : Str
  statusName : Str
  issuetypeName : Str
  priorityName : Option Str
deriving DecidableEq

structure LinkedIssue where
  key : Str
  fields : LinkedFields
deriving DecidableEq

/-- One entry of `issue_data['fields']['issuelinks']`. -/
structure IssueLink where
  outwardIssue : Option LinkedIssue
  inwardIssue : Option LinkedIssue
deriving DecidableEq

/-- The dict `_get_linked_service_tickets` appends for a qualifying link. -/
structure ServiceTicket where
  key : Str
  summary : Str
  status : Str
  issueType : Str
  priority : Str
deriving DecidableEq

/-- The keyword list of `_get_linked_service_tickets`, all lowercase. -/
def serviceKeywords : List Str :=
  ["service".toList, "request".toList, "incident".toList, "problem".toList]

/-- `any(keyword in issue_type_name for keyword in [...])` where
`issue_type_name` is the lowercased type name. -/
def isServiceType (li : LinkedIssue) : Bool :=
  serviceKeywords.any (fun k => occursIn k (lowerStr li.fields.issuetypeName))

/-- `link.get('outwardIssue') or link.get('inwardIssue')`: the outward
issue if present, else the inward one. -/
def resolveLinked (l : IssueLink) : Option LinkedIssue :=
  match l.outwardIssue with
  | some li => some li
  | none => l.inwardIssue

def mkServiceTicket (li : LinkedIssue) : ServiceTicket :=
  { key := li.key
    summary := li.fields.summary
    status := li.fields.statusName
    issueType := li.fields.issuetypeName
    priority := li.fields.priorityName.getD "Not set".toList }

/-- Body of the `for link in links` loop. -/
def ticketStep (acc : List ServiceTicket) (link : IssueLink) : List ServiceTicket :=
  match resolveLinked link with
  | none => acc
  | some li => if isServiceType li then acc ++ [mkServiceTicket li] else acc

/-- `AtlassianClient._get_linked_service_tickets`: `none` models a refetch
that returned `None` or lacked `'fields'` (early return `[]`); an issue
whose `fields` lack `issuelinks` is `some []` (the `.get('issuelinks', [])`
default). -/
def get_linked_service_tickets (resp : Option (List IssueLink)) :
    List ServiceTicket :=
  match resp with
  | none => []
  | some links => links.foldl ticketStep []

/-! ## Aggregator (`get_issue_context`) -/

/-- `issue_data['fields']` of the primary issue: the fields the code
reads. -/
structure IssueFields where
  summary : Str
  projectKey : Str
  statusName : Str
  issuetypeName : Str
deriving DecidableEq

/-- The primary issue response.  `key` is the canonical upstream issue key
(present in the Jira payload but never read by the code). -/
structure IssueResp where
  key : Str
  fields : IssueFields
deriving DecidableEq

/-- The `issue` dict assembled by `get_issue_context`. -/
structure IssueOut where
  key : Str
  summary : Str
  project : Str
  status : Str
  issueType : Str
deriving DecidableEq

/-- The `issue` dict is built from the caller-supplied `issue_key` plus
fields of the upstream response. -/
def mkIssueOut (issueKey : Str) (f : IssueFields) : IssueOut :=
  { key := issueKey
    summary := f.summary
    project := f.projectKey
    status := f.statusName
    issueType := f.issuetypeName }

/-- The dict returned by `get_issue_context` on success. -/
structure AggregatedContext where
  issue : IssueOut
  confluenceDocs : List DocumentRecord
  bitbucketCommits : List CommitRecord
  serviceTickets : List ServiceTicket
deriving DecidableEq

/-- Result of `get_issue_context`: either the `{'error': ...}` dict (issue
not found or inaccessible) or the assembled context. -/
inductive ContextResult where
  | notFound (issueKey : Str)
  | success (ctx : AggregatedContext)
deriving DecidableEq

/-- `isinstance(x, Exception)` guard after
`asyncio.gather(..., return_exceptions=True)`: an exception outcome is
replaced by the empty list, a normal outcome is kept unchanged. -/
def branchGuard {α : Type} (e : Except Unit (List α)) : List α :=
  match e with
  | .ok l => l
  | .error _ => []

/-- Lines 98–126 of `get_issue_context`: gather the three branch outcomes
(each possibly an exception), substitute `[]` for a failed branch, and
assemble the result dict.  Aggregation never fails at this point. -/
def assemble_context (issueKey : Str) (f : IssueFields)
    (docsR : Except Unit (List DocumentRecord))
    (commitsR : Except Unit (List CommitRecord))
    (ticketsR : Except Unit (List ServiceTicket)) : ContextResult :=
  ContextResult.success
    { issue := mkIssueOut issueKey f
      confluenceDocs := branchGuard docsR
      bitbucketCommits := branchGuard commitsR
      serviceTickets := branchGuard ticketsR }

/-- All remote responses a request can observe: the primary issue lookup,
the three Confluence query responses (in query order), the repository
listing, each repo slug's commits response, and the link-refetch
response. -/
structure Env where
  issueResp : Option IssueResp
  confluenceResps : List (Option (List ConfDoc))
  reposResp : Option (List Repo)
  commitsOf : Str → Option (List Commit)
  linksResp : Option (List IssueLink)

/-- A remote GET the control flow reaches, for stating that no secondary
fetch happens after a failed issue lookup.  Branch order in the trace is
the deterministic launch order of the `asyncio.gather` call. -/
inductive FetchEvent where
  | issueFetch
  | confluenceSearch (q : Nat)
  | repoList
  | repoCommits (slug : Str)
  | linksFetch
deriving DecidableEq

/-- The three Confluence queries are always issued. -/
def docsTrace : List FetchEvent :=
  [FetchEvent.confluenceSearch 0, FetchEvent.confluenceSearch 1, FetchEvent.confluenceSearch 2]

/-- The repository listing is always fetched; each of the (up to 3) listed
repos' commits is fetched exactly once (its coroutine is driven by the
first gather that contains it). -/
def commitsTrace (env : Env) : List FetchEvent :=
  FetchEvent.repoList ::
    (match env.reposResp with
      | none => []
      | some values => (values.take 3).map (fun r => FetchEvent.repoCommits r.slug))

/-- `AtlassianClient.get_issue_context`, paired with the trace of remote
fetches the control flow performs.  A falsy or absent issue response
(`if not issue_data`) short-circuits to the error dict before any
secondary fetch. -/
def get_issue_context_traced (issueKey : Str) (env : Env) :
    ContextResult × List FetchEvent :=
  match env.issueResp with
  | none => (ContextResult.notFound issueKey, [FetchEvent.issueFetch])
  | some resp =>
    (assemble_context issueKey resp.fields
      (Except.ok (get_confluence_docs env.confluenceResps))
      (get_bitbucket_commits issueKey env.reposResp env.commitsOf)
      (Except.ok (get_linked_service_tickets env.linksResp)),
     FetchEvent.issueFetch :: (docsTrace ++ commitsTrace env ++ [FetchEvent.linksFetch]))

/-- The value `get_issue_context` returns to its caller. -/
def get_issue_context (issueKey : Str) (env : Env) : ContextResult :=
  (get_issue_context_traced issueKey env).1

/-! ## Enrichment stage (`AIService`) -/

/-- The context dict passed to `enhance_with_ai` (assembled context plus
the two AI keys, both absent before enrichment). -/
structure ContextData where
  issue : IssueOut
  confluenceDocs : List DocumentRecord
  bitbucketCommits : List CommitRecord
  serviceTickets : List ServiceTicket
  aiSummary : Option Str
  aiSuggestions : Option (List Str)
deriving DecidableEq

/-- The language-model capability: the (already stripped) completion text
each of the three prompt kinds would receive, or a raised error.
`chatCommitSummary` maps the first 300 characters of a commit message to
its completion. -/
structure AICap where
  chatSummary : Except Unit Str
  chatSuggestions : Except Unit Str
  chatCommitSummary : Str → Except Unit Str

/-- The sentinel written when the capability is not configured. -/
def notConfiguredMessage : Str := "AI features not configured".toList

/-- `AIService._generate_context_summary`: builds a prompt from the issue
fields and result counts; on model failure returns the fixed fallback. -/
def generate_context_summary (enabled : Bool) (ai : AICap) : Str :=
  if enabled = false then "AI service unavailable".toList
  else
    match ai.chatSummary with
    | .ok s => s
    | .error _ => "Unable to generate AI summary at this time.".toList

def defaultSuggestions : List Str :=
  ["Check related documents".toList, "Review recent commits".toList,
   "Verify service dependencies".toList]

/-- The list comprehension of `_generate_suggestions`: split the completion
on newlines, keep lines that are nonempty after stripping, and map each
kept line to its stripped form with every occurrence of the bullet
sequences removed (Python `str.replace` replaces everywhere). -/
def parse_suggestions (text : Str) : List Str :=
  ((text.splitOn '\n').filter (fun s => !(stripStr s).isEmpty)).map
    (fun s =>
      replaceAllStr "* ".toList []
        (replaceAllStr "• ".toList []
          (replaceAllStr "- ".toList [] (stripStr s))))

/-- `AIService._generate_suggestions`: parsed suggestions capped at 3, the
fixed defaults when the capability is off, the model fails, or parsing
yields nothing. -/
def generate_suggestions (enabled : Bool) (ai : AICap) : List Str :=
  if enabled = false then defaultSuggestions
  else
    match ai.chatSuggestions with
    | .ok text =>
      let s := parse_suggestions text
      if s.isEmpty then defaultSuggestions else s.take 3
    | .error _ => defaultSuggestions

/-- Body of the `for commit in commits[:3]` loop of `_summarize_commits`:
a commit whose message exceeds 100 characters gets an `aiSummary` — the
model completion for its first 300 characters, or on failure the message
hard-truncated to 80 characters plus `"..."`. -/
def summarize_one (ai : AICap) (c : CommitRecord) : CommitRecord :=
  if 100 < c.message.length then
    match ai.chatCommitSummary (c.message.take 300) with
    | .ok s => { c with aiSummary := some s }
    | .error _ => { c with aiSummary := some (c.message.take 80 ++ "...".toList) }
  else c

/-- `AIService._summarize_commits`: the loop mutates the shared dicts of
the first three commits in place, so the returned list is the original
list with its first three entries possibly updated. -/
def summarize_commits (enabled : Bool) (ai : AICap)
    (commits : List CommitRecord) : List CommitRecord :=
  if !enabled || commits.isEmpty then commits
  else (commits.take 3).map (summarize_one ai) ++ commits.drop 3

/-- `AIService.enhance_with_ai`.  With the capability not configured the
two AI keys are set to the sentinel and the empty list and the dict is
returned unchanged otherwise.  When enabled, the three helpers each absorb
their own model failures, so the outer `except` branch is unreachable. -/
def enhance_with_ai (enabled : Bool) (ai : AICap) (ctx : ContextData) :
    ContextData :=
  if enabled = false then
    { ctx with aiSummary := some notConfiguredMessage, aiSuggestions := some [] }
  else
    { ctx with
        aiSummary := some (generate_context_summary enabled ai)
        aiSuggestions := some (generate_suggestions enabled ai)
        bitbucketCommits := summarize_commits enabled ai ctx.bitbucketCommits }

/-! ## Concrete inputs used by witnesses and counterexamples -/

def wKey : Str := "AB-1".toList

def wMsgA : Str := "Fix AB-1 alpha".toList

def wMsgB : Str := "ab-1 beta".toList

def wRepoA : Repo := { slug := "ra".toList, name := "RepoA".toList }

def wRepoB : Repo := { slug := "rb".toList, name := "RepoB".toList }

def wCommitA : Commit :=
  { id := "c1".toList, message := wMsgA,
    authorDisplayName := some "Ann".toList, authorTimestamp := 1 }

def wCommitB : Commit :=
  { id := "c2".toList, message := wMsgB,
    authorDisplayName := none, authorTimestamp := 2 }

def wCommitsOf : Str → Option (List Commit) := fun s =>
  if s = "ra".toList then some [wCommitA]
  else if s = "rb".toList then some [wCommitB]
  else none

def wRecA : CommitRecord :=
  { id := "c1".toList, message := wMsgA, author := "Ann".toList,
    authorTimestamp := 1, repository := "RepoA".toList, repoSlug := "ra".toList,
    aiSummary := none }

def wRecB : CommitRecord :=
  { id := "c2".toList, message := wMsgB, author := "Unknown".toList,
    authorTimestamp := 2, repository := "RepoB".toList, repoSlug := "rb".toList,
    aiSummary := none }

/-- Environment whose issue lookup fails. -/
def wEnvNotFound : Env :=
  { issueResp := none
    confluenceResps := []
    reposResp := none
    commitsOf := fun _ => none
    linksResp := none }

def wFields : IssueFields :=
  { summary := "Fix login".toList, projectKey := "ZZ".toList,
    statusName := "Open".toList, issuetypeName := "Task".toList }

/-- Environment whose upstream issue carries canonical key `ZZ-9`, queried
below with the differently-cased key `zz-9`. -/
def wEnvAlias : Env :=
  { issueResp := some { key := "ZZ-9".toList, fields := wFields }
    confluenceResps := []
    reposResp := none
    commitsOf := fun _ => none
    linksResp := none }

def wAliasKey : Str := "zz-9".toList

def wCtxAlias : AggregatedContext :=
  { issue := mkIssueOut wAliasKey wFields
    confluenceDocs := []
    bitbucketCommits := []
    serviceTickets := [] }

/-- A capability whose per-commit summarization always fails. -/
def wAICap : AICap :=
  { chatSummary := Except.ok "summary".toList
    chatSuggestions := Except.ok "- do a thing".toList
    chatCommitSummary := fun _ => Except.error () }

def wLongMsg : Str := List.replicate 120 'm'

def wShortCommit : CommitRecord :=
  { id := "s1".toList, message := "short".toList, author := "A".toList,
    authorTimestamp := 0, repository := "R".toList, repoSlug := "r".toList,
    aiSummary := none }

def wLongCommit : CommitRecord :=
  { id := "l1".toList, message := wLongMsg, author := "A".toList,
    authorTimestamp := 0, repository := "R".toList, repoSlug := "r".toList,
    aiSummary := none }

def wCommitList : List CommitRecord := [wShortCommit, wLongCommit]

/-- The `aiSummary` a long-message commit receives in `summarize_one`: the
model completion for the first 300 characters of the message, or on model
failure the message hard-truncated to 80 characters plus an ellipsis. -/
def longCommitSummary (ai : AICap) (c : CommitRecord) : Str :=
  match ai.chatCommitSummary (c.message.take 300) with
  | .ok s => s
  | .error _ => c.message.take 80 ++ "...".toList

/-- Decidable equality of fallible results, for evaluating the embedding
at concrete inputs. -/
instance {ε α : Type} [DecidableEq ε] [DecidableEq α] : DecidableEq (Except ε α) := fun a b =>
  match a, b with
  | .ok x, .ok y =>
    if h : x = y then isTrue (by rw [h]) else isFalse (fun he => h (Except.ok.inj he))
  | .error x, .error y =>
    if h : x = y then isTrue (by rw [h]) else isFalse (fun he => h (Except.error.inj he))
  | .ok _, .error _ => isFalse (fun he => Except.noConfusion he)
  | .error _, .ok _ => isFalse (fun he => Except.noConfusion he)

/-! # Theorems -/

theorem gatherTasks_all_none (ts : List TaskEntry) (h : ∀ t ∈ ts, t = none) :
    gatherTasks ts = List.replicate ts.length (Except.error ()) := by
  induction ts with
  | nil => rfl
  | cons t ts ih =>
    have ht : t = none := h t (List.mem_cons_self t ts)
    subst ht
    simp only [gatherTasks, List.map_cons, List.length_cons, List.replicate_succ]
    have := ih (fun t' ht' => h t' (List.mem_cons_of_mem _ ht'))
    simpa [gatherTasks] using this

theorem commitLoop_fold (rs : List (List CommitRecord)) :
    ∀ (rl : List CommitRecord) (ts : List TaskEntry),
      (∀ t ∈ ts, t = none) →
      ∀ (o : Option (List (Except Unit (List CommitRecord)))),
      ((rs ++ [rl]).foldl commitLoopStep (ts, o)).2
        = some (List.replicate (ts.length + rs.length) (Except.error ())
            ++ [Except.ok rl]) := by
  induction rs with
  | nil =>
    intro rl ts hts o
    simp only [List.nil_append, List.foldl_cons, List.foldl_nil, commitLoopStep]
    rw [show gatherTasks (ts ++ [some rl]) = gatherTasks ts ++ [Except.ok rl] by
      simp [gatherTasks]]
    rw [gatherTasks_all_none ts hts]
    simp
  | cons r rs ih =>
    intro rl ts hts o
    rw [List.cons_append, List.foldl_cons]
    rw [show commitLoopStep (ts, o) r
        = ((ts ++ [some r]).map (fun _ => (none : TaskEntry)),
           some (gatherTasks (ts ++ [some r]))) from rfl]
    have hall : ∀ t ∈ (ts ++ [some r]).map (fun _ => (none : TaskEntry)), t = none := by
      intro t ht
      rcases List.mem_map.mp ht with ⟨x, _, hx⟩
      exact hx.symm
    rw [ih rl ((ts ++ [some r]).map (fun _ => (none : TaskEntry))) hall
      (some (gatherTasks (ts ++ [some r])))]
    refine congrArg some (congrArg (· ++ [Except.ok rl]) ?_)
    refine congrArg (fun n => List.replicate n (Except.error ())) ?_
    simp
    omega

theorem extendLists_fold (n : Nat) (l : List CommitRecord) :
    (List.replicate n (Except.error ()) ++ [Except.ok l]).foldl extendLists [] = l := by
  induction n with
  | zero => simp [extendLists]
  | succ n ih => simpa [List.replicate_succ, extendLists] using ih

/-- Net effect of the misindented gather: when the (truncated-to-3)
repository list decomposes as `init ++ [lastRepo]`, only the last
repository's matching commits survive. -/
theorem get_bitbucket_commits_concat (issueKey : Str) (values : List Repo)
    (commitsOf : Str → Option (List Commit)) (init : List Repo) (lastRepo : Repo)
    (h : values.take 3 = init ++ [lastRepo]) :
    get_bitbucket_commits issueKey (some values) commitsOf
      = Except.ok ((get_commits_for_repo
          (commitsOf lastRepo.slug) lastRepo.name lastRepo.slug issueKey).take 15) := by
  simp only [get_bitbucket_commits, h, List.map_append, List.map_cons, List.map_nil]
  rw [commitLoop_fold (init.map
      (fun repo => get_commits_for_repo (commitsOf repo.slug) repo.name repo.slug issueKey))
    (get_commits_for_repo (commitsOf lastRepo.slug) lastRepo.name lastRepo.slug issueKey)
    [] (by simp) none]
  exact congrArg (fun l => Except.ok (List.take 15 l)) (extendLists_fold _ _)

theorem dedupDocs_nodup (ds : List DocumentRecord) :
    ∀ (seen : List Str) (acc : List DocumentRecord),
      (acc.map (fun d => d.id)).Nodup →
      (∀ a ∈ acc, a.id ∈ seen) →
      ((dedupDocs seen acc ds).map (fun d => d.id)).Nodup := by
  induction ds with
  | nil =>
    intro seen acc h1 _
    simpa [dedupDocs] using h1
  | cons d ds ih =>
    intro seen acc h1 h2
    by_cases hmem : d.id ∈ seen
    · simp only [dedupDocs, if_pos hmem]
      exact ih seen acc h1 h2
    · simp only [dedupDocs, if_neg hmem]
      apply ih (d.id :: seen) (acc ++ [d])
      · rw [List.map_append]
        refine List.Nodup.append h1 (List.nodup_singleton _) ?_
        intro x hx hx2
        rcases List.mem_map.mp hx with ⟨a, ha, rfl⟩
        have hseen : a.id ∈ seen := h2 a ha
        have : a.id = d.id := by simpa using hx2
        exact hmem (this ▸ hseen)
      · intro a ha
        rcases List.mem_append.mp ha with hl | hr
        · exact List.mem_cons_of_mem _ (h2 a hl)
        · have : a = d := by simpa using hr
          subst this
          exact List.mem_cons_self _ _

theorem dedupDocs_tail_sublist (ds : List DocumentRecord) :
    ∀ (seen : List Str) (acc : List DocumentRecord),
      ∃ r, r.Sublist ds ∧ dedupDocs seen acc ds = acc ++ r := by
  induction ds with
  | nil =>
    intro seen acc
    exact ⟨[], List.Sublist.refl [], by simp [dedupDocs]⟩
  | cons d ds ih =>
    intro seen acc
    by_cases hmem : d.id ∈ seen
    · rcases ih seen acc with ⟨r, hr, he⟩
      exact ⟨r, hr.cons d, by simp [dedupDocs, if_pos hmem, he]⟩
    · rcases ih (d.id :: seen) (acc ++ [d]) with ⟨r, hr, he⟩
      exact ⟨d :: r, hr.cons₂ d, by simp [dedupDocs, if_neg hmem, he]⟩

theorem dedupDocs_first_occurrence (ds : List DocumentRecord) :
    ∀ (seen : List Str) (acc : List DocumentRecord) (d : DocumentRecord),
      d ∈ dedupDocs seen acc ds →
      d ∈ acc ∨ (d.id ∉ seen ∧ ds.find? (fun x => x.id == d.id) = some d) := by
  induction ds with
  | nil =>
    intro seen acc d hd
    exact Or.inl (by simpa [dedupDocs] using hd)
  | cons e rest ih =>
    intro seen acc d hd
    by_cases hmem : e.id ∈ seen
    · rw [show dedupDocs seen acc (e :: rest) = dedupDocs seen acc rest from by
        simp [dedupDocs, hmem]] at hd
      rcases ih seen acc d hd with hacc | ⟨hns, hfind⟩
      · exact Or.inl hacc
      · refine Or.inr ⟨hns, ?_⟩
        have hne : ¬ (e.id == d.id) = true := by
          intro hb
          exact hns ((eq_of_beq hb) ▸ hmem)
        rw [List.find?_cons_of_neg rest (by simpa using hne)]
        exact hfind
    · rw [show dedupDocs seen acc (e :: rest) = dedupDocs (e.id :: seen) (acc ++ [e]) rest from by
        simp [dedupDocs, hmem]] at hd
      rcases ih (e.id :: seen) (acc ++ [e]) d hd with hacc | ⟨hns, hfind⟩
      · rcases List.mem_append.mp hacc with h | h
        · exact Or.inl h
        · have hde : d = e := by simpa using h
          subst hde
          refine Or.inr ⟨hmem, ?_⟩
          rw [List.find?_cons_of_pos rest (by simp)]
      · have hnseen : d.id ∉ seen := fun h => hns (List.mem_cons_of_mem _ h)
        have hne : ¬ (e.id == d.id) = true := by
          intro hb
          exact hns ((eq_of_beq hb) ▸ List.mem_cons_self _ _)
        refine Or.inr ⟨hnseen, ?_⟩
        rw [List.find?_cons_of_neg rest (by simpa using hne)]
        exact hfind

theorem dedupDocs_complete (ds : List DocumentRecord) :
    ∀ (seen : List Str) (acc : List DocumentRecord) (e : DocumentRecord),
      e ∈ ds →
      e.id ∈ seen ∨ ∃ d ∈ dedupDocs seen acc ds, d.id = e.id := by
  induction ds with
  | nil =>
    intro seen acc e he
    exact absurd he (List.not_mem_nil e)
  | cons x rest ih =>
    intro seen acc e he
    by_cases hmem : x.id ∈ seen
    · rw [show dedupDocs seen acc (x :: rest) = dedupDocs seen acc rest from by
        simp [dedupDocs, hmem]]
      rcases List.mem_cons.mp he with rfl | hrest
      · exact Or.inl hmem
      · exact ih seen acc e hrest
    · rw [show dedupDocs seen acc (x :: rest) = dedupDocs (x.id :: seen) (acc ++ [x]) rest from by
        simp [dedupDocs, hmem]]
      have hxout : x ∈ dedupDocs (x.id :: seen) (acc ++ [x]) rest := by
        rcases dedupDocs_tail_sublist rest (x.id :: seen) (acc ++ [x]) with ⟨r, _, heq⟩
        rw [heq]
        exact List.mem_append.mpr (Or.inl (List.mem_append.mpr (Or.inr (by simp))))
      rcases List.mem_cons.mp he with heq | hrest
      · subst heq
        exact Or.inr ⟨e, hxout, rfl⟩
      · rcases ih (x.id :: seen) (acc ++ [x]) e hrest with hseen | ⟨d, hd, hid⟩
        · rcases List.mem_cons.mp hseen with heq | hseen2
          · exact Or.inr ⟨x, hxout, heq.symm⟩
          · exact Or.inl hseen2
        · exact Or.inr ⟨d, hd, hid⟩

/-- C2: the document sequence returned by the document search has pairwise
distinct `id`s, at most 8 records, and is a sublist of the flattened query
results; moreover every returned record is exactly the first record of the
query-order flattening that carries its id (a record is kept only the
first time its id is seen, so first-seen order is preserved), and before
the cap at 8 every id occurring in the flattening is represented. -/
theorem C2_document_dedup_cap (results : List (Option (List ConfDoc))) :
    ((get_confluence_docs results).map (fun d => d.id)).Nodup
    ∧ (get_confluence_docs results).length ≤ 8
    ∧ (get_confluence_docs results).Sublist (collectDocs results)
    ∧ (∀ d ∈ get_confluence_docs results,
        (collectDocs results).find? (fun x => x.id == d.id) = some d)
    ∧ (∀ e ∈ collectDocs results,
        ∃ d ∈ dedupDocs [] [] (collectDocs results), d.id = e.id) := by
  refine ⟨?_, ?_, ?_, ?_, ?_⟩
  · have h := dedupDocs_nodup (collectDocs results) [] [] (by simp) (by simp)
    have hsub : (((dedupDocs [] [] (collectDocs results)).take 8).map (fun d => d.id)).Sublist
        ((dedupDocs [] [] (collectDocs results)).map (fun d => d.id)) :=
      (List.take_sublist _ _).map _
    exact List.Nodup.sublist hsub h
  · exact List.length_take_le _ _
  · rcases dedupDocs_tail_sublist (collectDocs results) [] [] with ⟨r, hr, he⟩
    have heq : dedupDocs [] [] (collectDocs results) = r := by simpa using he
    exact (List.take_sublist _ _).trans (heq ▸ hr)
  · intro d hd
    have hd2 : d ∈ dedupDocs [] [] (collectDocs results) := List.mem_of_mem_take hd
    rcases dedupDocs_first_occurrence (collectDocs results) [] [] d hd2 with hacc | ⟨_, hfind⟩
    · exact absurd hacc (List.not_mem_nil d)
    · exact hfind
  · intro e he
    rcases dedupDocs_complete (collectDocs results) [] [] e he with hseen | hex
    · exact absurd hseen (List.not_mem_nil e.id)
    · exact hex

theorem mem_get_commits_for_repo (commitsData : Option (List Commit))
    (repoName repoSlug issueKey : Str) (r : CommitRecord)
    (h : r ∈ get_commits_for_repo commitsData repoName repoSlug issueKey) :
    occursIn (upperStr issueKey) (upperStr r.message) = true := by
  match commitsData with
  | none => simp [get_commits_for_repo] at h
  | some values =>
    simp only [get_commits_for_repo] at h
    rcases List.mem_map.mp h with ⟨c, hc, rfl⟩
    exact (List.mem_filter.mp hc).2

/-- C5: every commit record the commit search returns has a message that
contains the issue key as a case-insensitive substring, and the returned
sequence has length at most 15. -/
theorem C5_commit_membership_cap (issueKey : Str) (reposData : Option (List Repo))
    (commitsOf : Str → Option (List Commit)) (l : List CommitRecord)
    (h : get_bitbucket_commits issueKey reposData commitsOf = Except.ok l) :
    (∀ r ∈ l, occursIn (upperStr issueKey) (upperStr r.message) = true)
    ∧ l.length ≤ 15 := by
  match reposData with
  | none =>
    simp only [get_bitbucket_commits] at h
    cases h
    exact ⟨fun r hr => absurd hr (List.not_mem_nil r), by simp⟩
  | some values =>
    rcases (values.take 3).eq_nil_or_concat' with hnil | ⟨init, lastRepo, hconcat⟩
    · simp only [get_bitbucket_commits, hnil, List.map_nil, List.foldl_nil] at h
      cases h
    · rw [get_bitbucket_commits_concat issueKey values commitsOf init lastRepo hconcat] at h
      cases h
      refine ⟨?_, List.length_take_le _ _⟩
      intro r hr
      exact mem_get_commits_for_repo _ _ _ _ r (List.mem_of_mem_take hr)

theorem C5_commit_membership_cap_witness :
    (∀ r ∈ [wRecA], occursIn (upperStr wKey) (upperStr r.message) = true)
    ∧ ([wRecA] : List CommitRecord).length ≤ 15 :=
  C5_commit_membership_cap wKey (some [wRepoA]) wCommitsOf [wRecA] (by decide)

/-- C1 (evaluation of the code at the failing input): with two listed
repositories whose commit fetches both succeed and each yield one matching
commit, the code returns only the last repository's commit — the
concatenation described by the spec, computed by `spec_search_commits`,
differs. -/
theorem C1_commit_fanout_divergence :
    get_bitbucket_commits wKey (some [wRepoA, wRepoB]) wCommitsOf = Except.ok [wRecB]
    ∧ spec_search_commits wKey [wRepoA, wRepoB] wCommitsOf = [wRecA, wRecB]
    ∧ Except.ok (spec_search_commits wKey [wRepoA, wRepoB] wCommitsOf)
        ≠ get_bitbucket_commits wKey (some [wRepoA, wRepoB]) wCommitsOf :=
  ⟨by decide, by decide, by decide⟩

/-- C3: if any one of the three gathered branches raises an error, the
aggregation still succeeds — the failing branch's field is the empty
sequence and the other two branches' results are included unchanged. -/
theorem C3_branch_isolation (issueKey : Str) (f : IssueFields)
    (ds : List DocumentRecord) (cs : List CommitRecord) (ts : List ServiceTicket) :
    assemble_context issueKey f (Except.error ()) (Except.ok cs) (Except.ok ts)
      = ContextResult.success
          { issue := mkIssueOut issueKey f, confluenceDocs := [],
            bitbucketCommits := cs, serviceTickets := ts }
    ∧ assemble_context issueKey f (Except.ok ds) (Except.error ()) (Except.ok ts)
      = ContextResult.success
          { issue := mkIssueOut issueKey f, confluenceDocs := ds,
            bitbucketCommits := [], serviceTickets := ts }
    ∧ assemble_context issueKey f (Except.ok ds) (Except.ok cs) (Except.error ())
      = ContextResult.success
          { issue := mkIssueOut issueKey f, confluenceDocs := ds,
            bitbucketCommits := cs, serviceTickets := [] } :=
  ⟨rfl, rfl, rfl⟩

/-- C4: when the issue lookup fails, the aggregation returns the
domain-level not-found result and the fetch trace contains only the issue
lookup — no secondary fetch is attempted. -/
theorem C4_lookup_failure_short_circuit (issueKey : Str) (env : Env)
    (h : env.issueResp = none) :
    get_issue_context_traced issueKey env
      = (ContextResult.notFound issueKey, [FetchEvent.issueFetch]) := by
  simp [get_issue_context_traced, h]

theorem C4_lookup_failure_short_circuit_witness :
    get_issue_context_traced wKey wEnvNotFound
      = (ContextResult.notFound wKey, [FetchEvent.issueFetch]) :=
  C4_lookup_failure_short_circuit wKey wEnvNotFound rfl

/-- C10: for every successful aggregation, the `key` field of the returned
issue record is the caller-supplied issue-key argument (the canonical
upstream key of the response is never consulted). -/
theorem C10_key_echoed_from_input (issueKey : Str) (env : Env)
    (ctx : AggregatedContext)
    (h : get_issue_context issueKey env = ContextResult.success ctx) :
    ctx.issue.key = issueKey := by
  unfold get_issue_context get_issue_context_traced at h
  cases hresp : env.issueResp with
  | none =>
    rw [hresp] at h
    exact absurd h (by simp)
  | some resp =>
    rw [hresp] at h
    have h2 : ContextResult.success
        { issue := mkIssueOut issueKey resp.fields
          confluenceDocs := branchGuard (Except.ok (get_confluence_docs env.confluenceResps))
          bitbucketCommits := branchGuard (get_bitbucket_commits issueKey env.reposResp env.commitsOf)
          serviceTickets := branchGuard (Except.ok (get_linked_service_tickets env.linksResp)) }
        = ContextResult.success ctx := h
    cases h2
    rfl

theorem C10_key_echoed_from_input_witness :
    wCtxAlias.issue.key = wAliasKey ∧ wAliasKey ≠ "ZZ-9".toList :=
  ⟨C10_key_echoed_from_input wAliasKey wEnvAlias wCtxAlias (by rfl), by decide⟩

/-- C6 counterexample: an upstream 404 yields exactly the same
caller-visible outcome (`none`) as a transport error and as a non-404
error status — the caller cannot distinguish them. -/
theorem C6_counterexample_indistinct :
    (make_async_request (HttpOutcome.response 404 (0 : Nat))).1
      = (make_async_request (HttpOutcome.transportFailure : HttpOutcome Nat)).1
    ∧ (make_async_request (HttpOutcome.response 404 (0 : Nat))).1
      = (make_async_request (HttpOutcome.response 500 (0 : Nat))).1 :=
  ⟨rfl, rfl⟩

/-- C6 (amended): every non-200 outcome — 404, other statuses, transport
failure — yields the same caller-visible `none`; the three cases are
distinguished only by the log entry the fetcher writes. -/
theorem C6_fetch_outcome_collapse {β : Type} (code : Nat) (b : β)
    (h : code ≠ 200) :
    (make_async_request (HttpOutcome.response code b)).1 = none
    ∧ (make_async_request (HttpOutcome.transportFailure : HttpOutcome β)).1 = none
    ∧ (make_async_request (HttpOutcome.response 404 b)).2 = RequestLog.warningNotFound
    ∧ (code ≠ 404 → (make_async_request (HttpOutcome.response code b)).2
        = RequestLog.errorStatusLog code)
    ∧ (make_async_request (HttpOutcome.transportFailure : HttpOutcome β)).2
        = RequestLog.errorTransport := by
  refine ⟨?_, rfl, rfl, ?_, rfl⟩
  · simp only [make_async_request, if_neg h]
    split <;> rfl
  · intro h404
    simp only [make_async_request, if_neg h, if_neg h404]

theorem C6_fetch_outcome_collapse_witness :
    (make_async_request (HttpOutcome.response 500 (0 : Nat))).1 = none
    ∧ (make_async_request (HttpOutcome.response 500 (0 : Nat))).2
        = RequestLog.errorStatusLog 500 :=
  ⟨(C6_fetch_outcome_collapse 500 0 (by decide)).1,
   (C6_fetch_outcome_collapse 500 0 (by decide)).2.2.2.1 (by decide)⟩

theorem lowerStr_serviceKeywords : ∀ k ∈ serviceKeywords, lowerStr k = k := by decide

theorem ticketStep_fold (links : List IssueLink) :
    ∀ acc, links.foldl ticketStep acc
      = acc ++ ((links.filterMap resolveLinked).filter isServiceType).map mkServiceTicket := by
  induction links with
  | nil => intro acc; simp
  | cons l ls ih =>
    intro acc
    rw [List.foldl_cons]
    cases hr : resolveLinked l with
    | none =>
      rw [show ticketStep acc l = acc from by simp [ticketStep, hr]]
      rw [ih acc]
      simp [List.filterMap_cons, hr]
    | some li =>
      by_cases hs : isServiceType li
      · rw [show ticketStep acc l = acc ++ [mkServiceTicket li] from by
          simp [ticketStep, hr, hs]]
        rw [ih]
        simp [List.filterMap_cons, hr, List.filter_cons, hs]
      · rw [show ticketStep acc l = acc from by simp [ticketStep, hr, hs]]
        rw [ih acc]
        simp [List.filterMap_cons, hr, List.filter_cons, hs]

/-- C7: a linked issue is included exactly when its resolved side exists
and its issue-type name case-insensitively contains one of the keywords
service / request / incident / problem; an issue with no links (or a failed
refetch) yields the empty sequence; link-list order is preserved. -/
theorem C7_linked_ticket_filter (links : List IssueLink) :
    get_linked_service_tickets none = []
    ∧ get_linked_service_tickets (some []) = []
    ∧ get_linked_service_tickets (some links)
        = ((links.filterMap resolveLinked).filter isServiceType).map mkServiceTicket
    ∧ ∀ li : LinkedIssue, isServiceType li = true
        ↔ ∃ k ∈ serviceKeywords,
            occursIn (lowerStr k) (lowerStr li.fields.issuetypeName) = true := by
  refine ⟨rfl, rfl, ?_, ?_⟩
  · simpa using ticketStep_fold links []
  · intro li
    constructor
    · intro h
      rcases List.any_eq_true.mp h with ⟨k, hk, hkk⟩
      exact ⟨k, hk, by rw [lowerStr_serviceKeywords k hk]; exact hkk⟩
    · rintro ⟨k, hk, hkk⟩
      rw [lowerStr_serviceKeywords k hk] at hkk
      exact List.any_eq_true.mpr ⟨k, hk, hkk⟩

/-- C8: with the enrichment capability not configured, `enhance_with_ai`
returns its input with `aiSummary` set to the fixed sentinel and
`aiSuggestions` set to the empty list, raising no error and leaving every
other field identical. -/
theorem C8_not_configured_sentinel (ai : AICap) (ctx : ContextData) :
    enhance_with_ai false ai ctx
      = { ctx with aiSummary := some notConfiguredMessage, aiSuggestions := some [] }
    ∧ (enhance_with_ai false ai ctx).issue = ctx.issue
    ∧ (enhance_with_ai false ai ctx).confluenceDocs = ctx.confluenceDocs
    ∧ (enhance_with_ai false ai ctx).bitbucketCommits = ctx.bitbucketCommits
    ∧ (enhance_with_ai false ai ctx).serviceTickets = ctx.serviceTickets :=
  ⟨rfl, rfl, rfl, rfl, rfl⟩

/-- C9: during enrichment, commits past the first three are untouched; a
commit among the first three keeps its record unchanged when its message
has at most 100 characters and otherwise gains an `aiSummary` — the model
completion, or on failure the message truncated to 80 characters plus an
ellipsis; the sequence length never changes, so no commit is dropped. -/
theorem C9_commit_summarization (ai : AICap) (cs : List CommitRecord) :
    (summarize_commits true ai cs).length = cs.length
    ∧ (∀ i, 3 ≤ i → (summarize_commits true ai cs)[i]? = cs[i]?)
    ∧ (∀ i c, cs[i]? = some c → i < 3 → c.message.length ≤ 100 →
        (summarize_commits true ai cs)[i]? = some c)
    ∧ (∀ i c, cs[i]? = some c → i < 3 → 100 < c.message.length →
        (summarize_commits true ai cs)[i]?
          = some { c with aiSummary := some (longCommitSummary ai c) }) := by
  by_cases hemp : cs.isEmpty
  · have hnil : cs = [] := List.isEmpty_iff.mp hemp
    subst hnil
    exact ⟨rfl, fun i _ => rfl, fun i c h => by simp at h, fun i c h => by simp at h⟩
  · have hfalse : cs.isEmpty = false := by
      cases h : cs.isEmpty
      · rfl
      · exact absurd h hemp
    have hout : summarize_commits true ai cs
        = (cs.take 3).map (summarize_one ai) ++ cs.drop 3 := by
      simp [summarize_commits, hfalse]
    refine ⟨?_, ?_, ?_, ?_⟩
    · rw [hout, List.length_append, List.length_map, ← List.length_append,
        List.take_append_drop]
    · intro i h3
      have hta : (cs.take 3).length ≤ 3 := List.length_take_le 3 cs
      have hnlt : ¬ i < (cs.take 3).length := by omega
      rw [hout, List.getElem?_append, List.length_map, if_neg hnlt]
      by_cases hlen : i < cs.length
      · have htake : (cs.take 3).length = 3 := by
          rw [List.length_take]
          omega
        rw [htake, List.getElem?_drop]
        congr 1
        omega
      · have h1 : cs[i]? = none := List.getElem?_eq_none (by omega)
        have h2 : (cs.drop 3)[i - (cs.take 3).length]? = none := by
          apply List.getElem?_eq_none
          rw [List.length_drop]
          omega
        rw [h1, h2]
    · intro i c hc hi3 hmsg
      rcases List.getElem?_eq_some.mp hc with ⟨hilen, _⟩
      have htake : i < (cs.take 3).length := by
        rw [List.length_take]
        exact Nat.lt_min.mpr ⟨hi3, hilen⟩
      have hlt : i < ((cs.take 3).map (summarize_one ai)).length := by
        rw [List.length_map]
        exact htake
      rw [hout, List.getElem?_append, if_pos hlt, List.getElem?_map,
        List.getElem?_take, if_pos hi3, hc]
      simp [summarize_one, Nat.not_lt.mpr hmsg]
    · intro i c hc hi3 hmsg
      rcases List.getElem?_eq_some.mp hc with ⟨hilen, _⟩
      have htake : i < (cs.take 3).length := by
        rw [List.length_take]
        exact Nat.lt_min.mpr ⟨hi3, hilen⟩
      have hlt : i < ((cs.take 3).map (summarize_one ai)).length := by
        rw [List.length_map]
        exact htake
      rw [hout, List.getElem?_append, if_pos hlt, List.getElem?_map,
        List.getElem?_take, if_pos hi3, hc]
      simp only [Option.map_some', summarize_one, longCommitSummary, if_pos hmsg]
      cases ai.chatCommitSummary (List.take 300 c.message) <;> rfl

theorem C9_commit_summarization_witness :
    (summarize_commits true wAICap wCommitList).length = wCommitList.length
    ∧ (summarize_commits true wAICap wCommitList)[1]?
        = some { wLongCommit with aiSummary := some (wLongMsg.take 80 ++ "...".toList) } := by
  refine ⟨(C9_commit_summarization wAICap wCommitList).1, ?_⟩
  have h := (C9_commit_summarization wAICap wCommitList).2.2.2 1 wLongCommit
    (by rfl) (by omega) (by decide)
  exact h
